import Mathlib

/-!
# Collaborative-canvas: shallow embedding of the server drawing state

This file embeds the core of the collaborative-canvas repository in Lean 4:

* `DrawingState` and its operations (`addAction`, `undoGlobal`, `undoForUser`,
  `redoGlobal`, `clear`, `getActiveActions`, `toJSON`/`fromJSON`) from
  `src/server/drawing-state.js`;
* the manager-level `clearState` from `DrawingStateManager`;
* the undo/redo message handlers and draw-move/draw-batch handlers from
  `src/server/server.js`;
* room-id generation from the `Room` class;
* the client-side adaptive transmission policy (`getAdaptiveThrottle`,
  `sendDrawMoveAdaptive`) from the client `CanvasManager`.

Modelling conventions: JavaScript numbers that the code only compares and
copies are `Nat`/`Int`; fields that may be `undefined` are `Option`;
`Date` timestamps (`createdAt`, `lastModified`, per-action `timestamp`) are
real-time values that no modelled observation reads, so they are omitted;
in-place array mutation becomes pure state passing.
-/

namespace Canvas

/-- Payload of an action, built by `addAction` from the incoming message
fields (`tool`, `color`, `size`, `path`, `startX`, `startY`); any of them may
be `undefined` in JavaScript, hence `Option`. -/
structure Payload where
  tool : Option String
  color : Option String
  size : Option Nat
  path : Option (List (Int × Int))
  startX : Option Int
  startY : Option Int
deriving DecidableEq, Repr

/-- One record of the action log: `{id, userId, type, payload, undone}`
(the `timestamp` field is a wall-clock `Date`, not modelled). The clear
marker appended by `clearState` has no `userId` (undefined in JS). -/
structure Action where
  id : Nat
  userId : Option String
  type : String
  payload : Payload
  undone : Bool
deriving DecidableEq, Repr

/-- Input object passed to `addAction` (the JS argument `action`). -/
structure ActionInput where
  userId : Option String
  type : String
  tool : Option String
  color : Option String
  size : Option Nat
  path : Option (List (Int × Int))
  startX : Option Int
  startY : Option Int
deriving DecidableEq, Repr

/-- `DrawingState` from `drawing-state.js`: room id, the action list with
soft-delete flags, the running id counter, and the retention cap
(`maxActions`, set to 1000 by the constructor). -/
structure DrawingState where
  roomId : String
  actions : List Action
  actionIdCounter : Nat
  maxActions : Nat
deriving DecidableEq, Repr

namespace DrawingState

/-- The `DrawingState` constructor: empty log, counter 0, cap 1000. -/
def init (roomId : String) : DrawingState :=
  { roomId := roomId, actions := [], actionIdCounter := 0, maxActions := 1000 }

/-- `addAction(action)`: `null`/non-object input (modelled as `none`) is
rejected; otherwise the next id is assigned (`++this.actionIdCounter`), the
new action is pushed, and if the length exceeds `maxActions` the list is
trimmed to its most recent `maxActions` entries (`slice(-maxActions)`). -/
def addAction (s : DrawingState) (input : Option ActionInput) :
    DrawingState × Option Action :=
  match input with
  | none => (s, none)
  | some a =>
    let newAction : Action :=
      { id := s.actionIdCounter + 1
        userId := a.userId
        type := a.type
        payload :=
          { tool := a.tool, color := a.color, size := a.size
            path := a.path, startX := a.startX, startY := a.startY }
        undone := false }
    let pushed := s.actions ++ [newAction]
    let trimmed :=
      if pushed.length > s.maxActions then
        pushed.drop (pushed.length - s.maxActions)
      else pushed
    ({ s with actions := trimmed, actionIdCounter := s.actionIdCounter + 1 },
     some newAction)

/-- The shared shape of the three reverse for-loops in `undoGlobal`,
`undoForUser` and `redoGlobal`: walking the reversed action list, find the
first action satisfying `p`, set its `undone` flag to `v`, and return the
updated (still reversed) list together with the mutated action; `none` when
no action qualifies. -/
def scanSet (p : Action → Bool) (v : Bool) : List Action → Option (List Action × Action)
  | [] => none
  | a :: rest =>
    if p a then
      some ({ a with undone := v } :: rest, { a with undone := v })
    else
      match scanSet p v rest with
      | none => none
      | some (r, act) => some (a :: r, act)

/-- `undoGlobal()`: mark the most recent non-undone, non-`clear` action as
undone and return it; `null` when none exists. -/
def undoGlobal (s : DrawingState) : DrawingState × Option Action :=
  match scanSet (fun a => !a.undone && a.type != "clear") true s.actions.reverse with
  | none => (s, none)
  | some (r, act) => ({ s with actions := r.reverse }, some act)

/-- `undoForUser(userId)`: mark this user's most recent non-undone,
non-`clear` action as undone and return it; `null` when none exists. -/
def undoForUser (s : DrawingState) (userId : String) : DrawingState × Option Action :=
  match scanSet
      (fun a => a.userId == some userId && !a.undone && a.type != "clear")
      true s.actions.reverse with
  | none => (s, none)
  | some (r, act) => ({ s with actions := r.reverse }, some act)

/-- `redoGlobal()`: un-mark the most recent undone, non-`clear` action and
return it; `null` when none exists. -/
def redoGlobal (s : DrawingState) : DrawingState × Option Action :=
  match scanSet (fun a => a.undone && a.type != "clear") false s.actions.reverse with
  | none => (s, none)
  | some (r, act) => ({ s with actions := r.reverse }, some act)

/-- `clear()`: empty the action list and reset the id counter to zero. -/
def clear (s : DrawingState) : DrawingState :=
  { s with actions := [], actionIdCounter := 0 }

/-- `getActiveActions()`: the actions with `undone == false`, in order. -/
def getActiveActions (s : DrawingState) : List Action :=
  s.actions.filter (fun a => !a.undone)

/-- The persisted record written by `toJSON` / read by `fromJSON`:
`{roomId, actions, actionIdCounter}` (the two ISO timestamp strings are not
modelled). `actions` and `actionIdCounter` are `Option` because `fromJSON`
guards them with `|| []` and `|| 0` against missing fields. -/
structure PersistedRecord where
  roomId : String
  actions : Option (List Action)
  actionIdCounter : Option Nat
deriving DecidableEq, Repr

/-- `toJSON()`: serialize the full state. -/
def toJSON (s : DrawingState) : PersistedRecord :=
  { roomId := s.roomId
    actions := some s.actions
    actionIdCounter := some s.actionIdCounter }

/-- `DrawingState.fromJSON(data)`: `new DrawingState(data.roomId)` (cap 1000),
then `actions = data.actions || []` and
`actionIdCounter = data.actionIdCounter || 0`. (`Option.getD` matches the JS
`||` fallback extensionally: a present counter of `0` is falsy in JS, but
`0 || 0` is again `0`, and a present empty array is truthy.) -/
def fromJSON (d : PersistedRecord) : DrawingState :=
  { roomId := d.roomId
    actions := d.actions.getD []
    actionIdCounter := d.actionIdCounter.getD 0
    maxActions := 1000 }

/-! ## Sequences of `addAction` calls (for the retention/id invariants) -/

/-- A sequence of `addAction` calls applied in order. -/
def runAdds (s : DrawingState) : List (Option ActionInput) → DrawingState
  | [] => s
  | inp :: rest => runAdds (s.addAction inp).1 rest

/-- The action ids handed out by a sequence of `addAction` calls, in call
order (a rejected `null` input assigns no id). -/
def assignedIds (s : DrawingState) : List (Option ActionInput) → List Nat
  | [] => []
  | inp :: rest =>
    match (s.addAction inp).2 with
    | some a => a.id :: assignedIds (s.addAction inp).1 rest
    | none => assignedIds (s.addAction inp).1 rest

end DrawingState

/-- The argument `{ type: 'clear' }` that `DrawingStateManager.clearState`
passes to `addAction`: every other field is undefined. -/
def clearInput : ActionInput :=
  { userId := none, type := "clear", tool := none, color := none
    size := none, path := none, startX := none, startY := none }

/-- `DrawingStateManager.clearState(roomId)` on a resident state:
`state.clear()` followed by `state.addAction({ type: 'clear' })`. -/
def clearState (s : DrawingState) : DrawingState :=
  (s.clear.addAction (some clearInput)).1

/-- A concrete completed-stroke input (the shape `handleDrawEvent` passes to
`addAction` on a `draw-end`), used to instantiate witnesses. -/
def strokeInput (u : String) : ActionInput :=
  { userId := some u, type := "draw-end", tool := some "brush"
    color := some "#000000", size := some 5, path := some [(0, 0), (1, 1)]
    startX := some 0, startY := some 0 }

/-! ## Synchronization engine (`src/server/server.js`) -/

/-- The `canvas-rebuild` broadcast sent by `handleUndoGlobal`,
`handleUndoMy` and `handleRedoGlobal`: the full state snapshot
(`getState()` yields the action list and its length), the undo type,
the mutated action's id, and the triggering username. -/
structure RebuildBroadcast where
  stateActions : List Action
  actionCount : Nat
  undoType : String
  affectedActionId : Nat
  triggeredBy : String
deriving DecidableEq, Repr

/-- `handleUndoGlobal(ws)`: nothing if the connection has not joined a room;
otherwise run `undoGlobal` and, only when it returned an action, broadcast a
`canvas-rebuild` and request a persistence write. Result: the new drawing
state, the broadcasts sent, and whether `saveState` was called. -/
def handleUndoGlobal (joined : Bool) (s : DrawingState) (username : String) :
    DrawingState × List RebuildBroadcast × Bool :=
  if !joined then (s, [], false)
  else
    match s.undoGlobal with
    | (s', some act) =>
      (s', [{ stateActions := s'.actions, actionCount := s'.actions.length
              undoType := "global", affectedActionId := act.id
              triggeredBy := username }], true)
    | (s', none) => (s', [], false)

/-- `handleUndoMy(ws)`: like `handleUndoGlobal` but via
`undoForUser(ws.id)` and undo type `"my"`. -/
def handleUndoMy (joined : Bool) (s : DrawingState) (userId username : String) :
    DrawingState × List RebuildBroadcast × Bool :=
  if !joined then (s, [], false)
  else
    match s.undoForUser userId with
    | (s', some act) =>
      (s', [{ stateActions := s'.actions, actionCount := s'.actions.length
              undoType := "my", affectedActionId := act.id
              triggeredBy := username }], true)
    | (s', none) => (s', [], false)

/-- `handleRedoGlobal(ws)`: like `handleUndoGlobal` but via `redoGlobal`
and undo type `"redo"`. -/
def handleRedoGlobal (joined : Bool) (s : DrawingState) (username : String) :
    DrawingState × List RebuildBroadcast × Bool :=
  if !joined then (s, [], false)
  else
    match s.redoGlobal with
    | (s', some act) =>
      (s', [{ stateActions := s'.actions, actionCount := s'.actions.length
              undoType := "redo", affectedActionId := act.id
              triggeredBy := username }], true)
    | (s', none) => (s', [], false)

/-- The undo/redo arm of `handleMessage`'s switch: the five cases
`undo-global`, `undo-my`, `redo-global` and the legacy `undo`, `redo`,
routed to their handlers. Other message types go to unrelated handlers and
are out of this arm (`none`). -/
def handleMessageUndoRedo (msgType : String) (joined : Bool)
    (s : DrawingState) (userId username : String) :
    Option (DrawingState × List RebuildBroadcast × Bool) :=
  match msgType with
  | "undo-global" => some (handleUndoGlobal joined s username)
  | "undo-my" => some (handleUndoMy joined s userId username)
  | "redo-global" => some (handleRedoGlobal joined s username)
  | "undo" => some (handleUndoMy joined s userId username)
  | "redo" => some (handleRedoGlobal joined s username)
  | _ => none

/-- One point of a `draw-move` message or of a `draw-batch`'s `moves` array:
`{tool, color, size, x, y}`. The server inspects only `x` and `y` with
`typeof === 'number'`, modelled by `Option Int` (`none` = missing or not a
number); the other fields are copied through untouched. -/
structure MovePoint where
  tool : Option String
  color : Option String
  size : Option Nat
  x : Option Int
  y : Option Int
deriving DecidableEq, Repr

/-- A re-broadcast `draw-move` as the other room members receive it:
the move's fields plus the sender's `userId` and `username`. -/
structure OutDrawMove where
  userId : String
  username : String
  tool : Option String
  color : Option String
  size : Option Nat
  x : Int
  y : Int
deriving DecidableEq, Repr

/-- `isValidDrawData` for a `draw-start`/`draw-move` message: `x` and `y`
must be numbers with absolute value at most 10000. -/
def isValidDrawMove (m : MovePoint) : Bool :=
  match m.x, m.y with
  | some x, some y => x.natAbs ≤ 10000 && y.natAbs ≤ 10000
  | _, _ => false

/-- `handleDrawEvent` on a `draw-move` message: nothing unless joined;
drop the message unless `isValidDrawData` passes; otherwise tag the message
with the sender's identity and broadcast it to the other room members.
(`draw-move` never touches the action log; only `draw-end` does.) -/
def handleDrawMove (joined : Bool) (userId username : String) (m : MovePoint) :
    List OutDrawMove :=
  if !joined then []
  else if !isValidDrawMove m then []
  else
    match m.x, m.y with
    | some x, some y =>
      [{ userId := userId, username := username, tool := m.tool
         color := m.color, size := m.size, x := x, y := y }]
    | _, _ => []

/-- `handleDrawBatch(ws, msg)`: nothing unless joined; nothing for an empty
`moves` array; otherwise each move whose `x` and `y` are numbers is
re-broadcast as a `draw-move` (moves with a non-number coordinate are
skipped with `continue`). The drawing state is passed through untouched —
the handler never calls into the drawing-state manager. -/
def handleDrawBatch (joined : Bool) (s : DrawingState)
    (userId username : String) (moves : List MovePoint) :
    DrawingState × List OutDrawMove :=
  if !joined then (s, [])
  else if moves.isEmpty then (s, [])
  else
    (s, moves.filterMap (fun m =>
      match m.x, m.y with
      | some x, some y =>
        some { userId := userId, username := username, tool := m.tool
               color := m.color, size := m.size, x := x, y := y }
      | _, _ => none))

/-! ## Room id generation (`Room.generateId` in `drawing-state.js`) -/

/-- The character set of `Room.generateId`, written in the source as
`'ABCDEFGHJKLMNPQRSTUVWXYZ23456789'` under the comment
"Readable chars only (no 0/O, 1/I/L confusion)". -/
def roomIdChars : String := "ABCDEFGHJKLMNPQRSTUVWXYZ23456789"

/-- `Room.generateId()`: six characters, each picked from `roomIdChars` by
`Math.floor(Math.random() * chars.length)`; the random draws are modelled
as an explicit list of indices below `roomIdChars.length`. -/
def generateId (draws : Fin 6 → Fin roomIdChars.length) : String :=
  String.mk ((List.finRange 6).map (fun i => roomIdChars.toList.get (draws i)))

/-! ## Adaptive transmission controller (client `CanvasManager`) -/

/-- `getAdaptiveThrottle()`: the throttle interval in ms picked from the
current smoothed latency. -/
def getAdaptiveThrottle (latency : Nat) : Nat :=
  if latency < 50 then 8
  else if latency < 100 then 16
  else if latency < 200 then 32
  else 50

/-- The transmission policy `sendDrawMoveAdaptive` commits to for one
`draw-move`: either each move goes out as its own `draw-move` message
(throttled), or moves accumulate in `moveBatch` and are flushed as one
`draw-batch` (throttled), or nothing is sent at all. -/
inductive SendPolicy where
  | individual (throttleMs : Nat)
  | batch (throttleMs : Nat)
  | silent
deriving DecidableEq, Repr

/-- The branch structure of `sendDrawMoveAdaptive(drawData)`: return
immediately when neither callback is wired; batch when
`latency >= 150 && this.onDrawBatch`; otherwise send individually. The
throttle interval is `getAdaptiveThrottle()` in both active branches. -/
def sendDrawMoveAdaptive (latency : Nat) (hasOnDrawMove hasOnDrawBatch : Bool) :
    SendPolicy :=
  if !hasOnDrawMove && !hasOnDrawBatch then .silent
  else
    let throttleMs := getAdaptiveThrottle latency
    if 150 ≤ latency && hasOnDrawBatch then .batch throttleMs
    else .individual throttleMs

/-! ## Lemmas about the shared undo/redo scan -/

namespace DrawingState

theorem scanSet_eq_none_iff (p : Action → Bool) (v : Bool) (l : List Action) :
    scanSet p v l = none ↔ ∀ a ∈ l, p a = false := by
  induction l with
  | nil => simp [scanSet]
  | cons a rest ih =>
    by_cases ha : p a
    · simp [scanSet, ha]
    · simp only [Bool.not_eq_true] at ha
      cases hrest : scanSet p v rest with
      | none =>
        have hall := ih.mp hrest
        simp only [scanSet, ha, Bool.false_eq_true, if_false, hrest,
          List.mem_cons, true_iff]
        intro b hb
        rcases hb with hb | hb
        · subst hb; exact ha
        · exact hall b hb
      | some pr =>
        obtain ⟨r, act⟩ := pr
        simp only [scanSet, ha, Bool.false_eq_true, if_false, hrest]
        constructor
        · intro h; exact Option.noConfusion h
        · intro hall
          exfalso
          have hnone : scanSet p v rest = none :=
            ih.mpr (fun b hb => hall b (List.mem_cons_of_mem a hb))
          rw [hnone] at hrest
          exact Option.noConfusion hrest

theorem scanSet_eq_some (p : Action → Bool) (v : Bool) (l r : List Action)
    (act : Action) (h : scanSet p v l = some (r, act)) :
    ∃ l₁ a l₂, l = l₁ ++ a :: l₂ ∧ (∀ b ∈ l₁, p b = false) ∧ p a = true ∧
      r = l₁ ++ { a with undone := v } :: l₂ ∧ act = { a with undone := v } := by
  induction l generalizing r act with
  | nil => simp [scanSet] at h
  | cons a rest ih =>
    by_cases ha : p a
    · refine ⟨[], a, rest, by simp, by simp, ha, ?_, ?_⟩
      · simp only [scanSet, ha, if_true, Option.some.injEq, Prod.mk.injEq] at h
        simp [← h.1]
      · simp only [scanSet, ha, if_true, Option.some.injEq, Prod.mk.injEq] at h
        exact h.2.symm
    · simp only [Bool.not_eq_true] at ha
      simp only [scanSet, ha, Bool.false_eq_true, if_false] at h
      cases hrest : scanSet p v rest with
      | none => rw [hrest] at h; exact absurd h (by simp)
      | some pr =>
        obtain ⟨r', act'⟩ := pr
        rw [hrest] at h
        simp only [Option.some.injEq, Prod.mk.injEq] at h
        obtain ⟨hr, hact⟩ := h
        obtain ⟨l₁, b, l₂, hl, hl₁, hb, hr', hact'⟩ := ih r' act' hrest
        refine ⟨a :: l₁, b, l₂, by simp [hl], ?_, hb, ?_, by rw [← hact, hact']⟩
        · intro c hc
          rcases List.mem_cons.mp hc with hc | hc
          · subst hc; exact ha
          · exact hl₁ c hc
        · rw [← hr, hr']; simp

theorem scanSet_append (p : Action → Bool) (v : Bool) (l₁ l₂ : List Action)
    (a : Action) (h₁ : ∀ b ∈ l₁, p b = false) (ha : p a = true) :
    scanSet p v (l₁ ++ a :: l₂) =
      some (l₁ ++ { a with undone := v } :: l₂, { a with undone := v }) := by
  induction l₁ with
  | nil => simp [scanSet, ha]
  | cons b rest ih =>
    have hb : p b = false := h₁ b (List.mem_cons_self b rest)
    simp only [List.cons_append, scanSet, hb, Bool.false_eq_true, if_false,
      List.append_eq]
    rw [ih (fun c hc => h₁ c (List.mem_cons_of_mem b hc))]

theorem addAction_maxActions (s : DrawingState) (inp : Option ActionInput) :
    (s.addAction inp).1.maxActions = s.maxActions := by
  cases inp <;> simp [addAction]

theorem addAction_none (s : DrawingState) : s.addAction none = (s, none) := rfl

theorem addAction_some_counter (s : DrawingState) (a : ActionInput) :
    (s.addAction (some a)).1.actionIdCounter = s.actionIdCounter + 1 := rfl

theorem addAction_some_snd (s : DrawingState) (a : ActionInput) :
    (s.addAction (some a)).2 = some
      { id := s.actionIdCounter + 1
        userId := a.userId
        type := a.type
        payload :=
          { tool := a.tool, color := a.color, size := a.size
            path := a.path, startX := a.startX, startY := a.startY }
        undone := false } := rfl

theorem addAction_suffix (s : DrawingState) (a : ActionInput) :
    ∃ na, (s.addAction (some a)).2 = some na ∧
      List.IsSuffix (s.addAction (some a)).1.actions (s.actions ++ [na]) := by
  refine ⟨_, addAction_some_snd s a, ?_⟩
  show List.IsSuffix (if _ then _ else _) _
  split
  · exact List.drop_suffix _ _
  · exact List.suffix_refl _

/-- Id bookkeeping invariant of a drawing state: every stored id is at most
the counter, and ids are strictly increasing along the list. -/
def IdsOk (s : DrawingState) : Prop :=
  (∀ a ∈ s.actions, a.id ≤ s.actionIdCounter) ∧
    s.actions.Pairwise (fun a b => a.id < b.id)

theorem addAction_idsOk (s : DrawingState) (inp : Option ActionInput)
    (h : IdsOk s) : IdsOk (s.addAction inp).1 := by
  obtain ⟨hle, hsort⟩ := h
  cases inp with
  | none => exact ⟨hle, hsort⟩
  | some a =>
    obtain ⟨na, hna, hsuffix⟩ := addAction_suffix s a
    rw [addAction_some_snd] at hna
    replace hna := Option.some.inj hna
    have hsub : (s.addAction (some a)).1.actions.Sublist (s.actions ++ [na]) :=
      hsuffix.sublist
    constructor
    · intro b hb
      have hb' := hsub.mem hb
      rw [addAction_some_counter]
      rcases List.mem_append.mp hb' with hb' | hb'
      · exact le_trans (hle b hb') (Nat.le_succ _)
      · rcases List.mem_singleton.mp hb' with rfl
        rw [← hna]
    · refine List.Pairwise.sublist hsub ?_
      rw [List.pairwise_append]
      refine ⟨hsort, List.pairwise_singleton _ _, ?_⟩
      intro x hx y hy
      rcases List.mem_singleton.mp hy with rfl
      rw [← hna]
      exact Nat.lt_succ_of_le (hle x hx)

theorem addAction_length (s : DrawingState) (inp : Option ActionInput)
    (h : s.actions.length ≤ s.maxActions) :
    (s.addAction inp).1.actions.length ≤ s.maxActions := by
  cases inp with
  | none => exact h
  | some a =>
    show (if _ > _ then List.drop _ _ else _).length ≤ _
    split
    · rename_i hgt
      rw [List.length_drop]
      omega
    · rename_i hle
      omega

theorem runAdds_inv (inputs : List (Option ActionInput)) (s : DrawingState)
    (h : IdsOk s ∧ s.actions.length ≤ s.maxActions) :
    IdsOk (runAdds s inputs) ∧
      (runAdds s inputs).actions.length ≤ (runAdds s inputs).maxActions := by
  induction inputs generalizing s with
  | nil => exact h
  | cons inp rest ih =>
    exact ih (s.addAction inp).1
      ⟨addAction_idsOk s inp h.1,
       by rw [addAction_maxActions]; exact addAction_length s inp h.2⟩

theorem runAdds_maxActions (inputs : List (Option ActionInput))
    (s : DrawingState) : (runAdds s inputs).maxActions = s.maxActions := by
  induction inputs generalizing s with
  | nil => rfl
  | cons inp rest ih =>
    rw [runAdds, ih, addAction_maxActions]

theorem assignedIds_gt (inputs : List (Option ActionInput)) (s : DrawingState) :
    (∀ i ∈ assignedIds s inputs, s.actionIdCounter < i) ∧
      List.Pairwise (· < ·) (assignedIds s inputs) := by
  induction inputs generalizing s with
  | nil => exact ⟨by simp [assignedIds], List.Pairwise.nil⟩
  | cons inp rest ih =>
    cases inp with
    | none =>
      simpa [assignedIds, addAction_none] using ih s
    | some a =>
      have ih' := ih (s.addAction (some a)).1
      rw [addAction_some_counter] at ih'
      constructor
      · intro i hi
        simp only [assignedIds, addAction_some_snd] at hi
        rcases List.mem_cons.mp hi with rfl | hi
        · exact Nat.lt_succ_self _
        · exact Nat.lt_of_succ_lt (ih'.1 i hi)
      · simp only [assignedIds, addAction_some_snd]
        exact List.Pairwise.cons (fun i hi => ih'.1 i hi) ih'.2

end DrawingState

/-! ## Claim theorems -/

/-- **C1**: over any sequence of `addAction` calls on one action log, the
assigned ids are strictly increasing (hence never reused, across truncation
included), the stored ids stay strictly increasing along the log, the log and
`getActiveActions()` never exceed 1000 entries, and every further append
leaves a suffix of the old log plus the new action (oldest entries dropped
first, relative order and surviving ids unchanged). -/
theorem C1_addAction_invariants (roomId : String)
    (inputs : List (Option ActionInput)) :
    List.Pairwise (fun a b => a.id < b.id)
        (DrawingState.runAdds (DrawingState.init roomId) inputs).actions ∧
    List.Pairwise (· < ·)
        (DrawingState.assignedIds (DrawingState.init roomId) inputs) ∧
    (DrawingState.runAdds (DrawingState.init roomId) inputs).actions.length ≤ 1000 ∧
    (DrawingState.runAdds (DrawingState.init roomId) inputs).getActiveActions.length ≤ 1000 ∧
    ∀ a : ActionInput, ∃ na,
      ((DrawingState.runAdds (DrawingState.init roomId) inputs).addAction (some a)).2
          = some na ∧
        List.IsSuffix
          ((DrawingState.runAdds (DrawingState.init roomId) inputs).addAction (some a)).1.actions
          ((DrawingState.runAdds (DrawingState.init roomId) inputs).actions ++ [na]) := by
  have h0 : DrawingState.IdsOk (DrawingState.init roomId) ∧
      (DrawingState.init roomId).actions.length ≤
        (DrawingState.init roomId).maxActions :=
    ⟨⟨fun a ha => absurd ha (List.not_mem_nil a), List.Pairwise.nil⟩,
     by simp [DrawingState.init]⟩
  have hinv := DrawingState.runAdds_inv inputs _ h0
  have hmax := DrawingState.runAdds_maxActions inputs (DrawingState.init roomId)
  have hlen : (DrawingState.runAdds (DrawingState.init roomId) inputs).actions.length
      ≤ 1000 := by
    have := hinv.2
    rw [hmax] at this
    simpa [DrawingState.init] using this
  refine ⟨hinv.1.2, (DrawingState.assignedIds_gt inputs _).2, hlen, ?_,
    fun a => DrawingState.addAction_suffix _ a⟩
  exact le_trans (List.length_filter_le _ _) hlen

/-- **C4 counterexample**: the claim "after a clear no action is ever assigned
an id equal to an id issued before the clear" fails on the code: starting
from a fresh log, one stroke is assigned id 1, and the clear marker appended
by `clearState` is assigned id 1 again, because `clear()` resets
`actionIdCounter` to 0. -/
theorem C4_counterexample :
    ((DrawingState.init "ROOM").addAction (some
        { userId := some "A", type := "draw-end", tool := some "brush"
          color := some "#000000", size := some 5, path := some [(0, 0), (1, 1)]
          startX := some 0, startY := some 0 })).2.map Action.id = some 1 ∧
    (clearState ((DrawingState.init "ROOM").addAction (some
        { userId := some "A", type := "draw-end", tool := some "brush"
          color := some "#000000", size := some 5, path := some [(0, 0), (1, 1)]
          startX := some 0, startY := some 0 })).1).actions.map Action.id = [1] := by
  constructor <;> rfl

/-- **C4 (amended)**: `clearState` is destructive with respect to content,
not ids: it always leaves the log holding exactly one `clear` marker with id
1 and the counter at 1, so no pre-clear action survives for late undo/redo
to touch — but the id counter restarts, so ids issued after the clear
coincide with pre-clear ids rather than extending them. -/
theorem C4_clearState_resets (s : DrawingState) (h : s.maxActions = 1000) :
    clearState s =
      { roomId := s.roomId
        actions := [{ id := 1, userId := none, type := "clear"
                      payload := { tool := none, color := none, size := none
                                   path := none, startX := none, startY := none }
                      undone := false }]
        actionIdCounter := 1
        maxActions := 1000 } := by
  simp [clearState, DrawingState.clear, DrawingState.addAction, clearInput, h]

/-- Witness for C4 (amended): `clearState` applied after one stroke on a
fresh log yields exactly the singleton clear marker with id 1. -/
theorem C4_clearState_resets_witness :
    clearState ((DrawingState.init "ROOM").addAction (some
        { userId := some "A", type := "draw-end", tool := some "brush"
          color := some "#000000", size := some 5, path := some [(0, 0), (1, 1)]
          startX := some 0, startY := some 0 })).1 =
      { roomId := "ROOM"
        actions := [{ id := 1, userId := none, type := "clear"
                      payload := { tool := none, color := none, size := none
                                   path := none, startX := none, startY := none }
                      undone := false }]
        actionIdCounter := 1
        maxActions := 1000 } :=
  C4_clearState_resets _ rfl

/-- **C7**: serializing any log to the persisted-record shape (`toJSON`, as
`saveState` writes it) and reconstructing it (`fromJSON`, as `loadState`
reads it) preserves `getActiveActions()` exactly and preserves the next
assigned action id (the reconstructed log answers every further `addAction`
with the same new action). -/
theorem C7_persistence_roundtrip (s : DrawingState) :
    (DrawingState.fromJSON s.toJSON).getActiveActions = s.getActiveActions ∧
    (DrawingState.fromJSON s.toJSON).actionIdCounter = s.actionIdCounter ∧
    ∀ inp : ActionInput,
      ((DrawingState.fromJSON s.toJSON).addAction (some inp)).2 =
        (s.addAction (some inp)).2 :=
  ⟨rfl, rfl, fun _ => rfl⟩

/-- **C8**: the room-id alphabet is claimed (by the spec and by the source's
own comment "no 0/O, 1/I/L confusion") to exclude `L`, yet
`'ABCDEFGHJKLMNPQRSTUVWXYZ23456789'` contains `L` at index 10: with random
draws that all hit index 10, `generateId` produces the id `"LLLLLL"`. The
alphabet does exclude `0`, `O`, `1` and `I`. -/
theorem C8_generateId_L :
    generateId (fun _ => ⟨10, by decide⟩) = "LLLLLL" ∧
    'L' ∈ roomIdChars.toList ∧
    '0' ∉ roomIdChars.toList ∧ 'O' ∉ roomIdChars.toList ∧
    '1' ∉ roomIdChars.toList ∧ 'I' ∉ roomIdChars.toList := by
  refine ⟨rfl, by decide, by decide, by decide, by decide, by decide⟩

/-- **C2 counterexample**: the claim fails on a non-empty log whose only
action is already undone: append one stroke, undo it (this pre-undo log is
non-empty, `activeActions()` = `[]`), then `undoGlobal` is a no-op but the
immediately following `redoGlobal` revives the old stroke, so
`activeActions()` ends different from the pre-undo set. -/
theorem C2_counterexample :
    (((DrawingState.init "ROOM").addAction
        (some (strokeInput "A"))).1.undoGlobal).1.actions ≠ [] ∧
    (((((DrawingState.init "ROOM").addAction
        (some (strokeInput "A"))).1.undoGlobal).1.undoGlobal).1.redoGlobal).1.getActiveActions ≠
      (((DrawingState.init "ROOM").addAction
        (some (strokeInput "A"))).1.undoGlobal).1.getActiveActions := by
  decide

/-- **C2 (amended)**: `undoGlobal` immediately followed by `redoGlobal`
restores the log exactly — `activeActions()` included — provided the log
has at least one active non-`clear` action and no undone non-`clear` action
occurs later in the log than the *newest* active non-`clear` action (the
`hord` hypothesis constrains only decompositions `pre ++ a :: post` whose
`post` holds no further active non-`clear` action — i.e. `a` is the newest
one, the action the undo scan flips). Logs such as
`[active, undone, active]` satisfy this. Without these conditions the redo
scan can pick a previously-undone action that is more recent than the one
the undo flipped, as the counterexample shows. -/
theorem C2_undo_redo_roundtrip (s : DrawingState)
    (hex : ∃ a ∈ s.actions, a.undone = false ∧ a.type ≠ "clear")
    (hord : ∀ pre a post, s.actions = pre ++ a :: post →
      a.undone = false → a.type ≠ "clear" →
      (∀ b ∈ post, ¬(b.undone = false ∧ b.type ≠ "clear")) →
      ∀ b ∈ post, ¬(b.undone = true ∧ b.type ≠ "clear")) :
    ((s.undoGlobal).1.redoGlobal).1 = s ∧
    ((s.undoGlobal).1.redoGlobal).1.getActiveActions = s.getActiveActions := by
  have hsome : DrawingState.scanSet (fun a => !a.undone && a.type != "clear")
      true s.actions.reverse ≠ none := by
    intro hn
    rw [DrawingState.scanSet_eq_none_iff] at hn
    obtain ⟨a, ha, h1, h2⟩ := hex
    have := hn a (List.mem_reverse.mpr ha)
    simp [h1, h2] at this
  obtain ⟨⟨r, act⟩, hscan⟩ := Option.ne_none_iff_exists'.mp hsome
  obtain ⟨l₁, a, l₂, hldec, hl₁, hpa, hr, hact⟩ :=
    DrawingState.scanSet_eq_some _ _ _ _ _ hscan
  simp only [Bool.and_eq_true, Bool.not_eq_true', bne_iff_ne, ne_eq] at hpa
  obtain ⟨hundone, htype⟩ := hpa
  have hacts : s.actions = l₂.reverse ++ a :: l₁.reverse := by
    have h := congrArg List.reverse hldec
    rw [List.reverse_reverse] at h
    rw [h]
    simp
  have hundoState : (s.undoGlobal).1 = { s with actions := r.reverse } := by
    unfold DrawingState.undoGlobal
    rw [hscan]
  have hnewest : ∀ b ∈ l₁.reverse, ¬(b.undone = false ∧ b.type ≠ "clear") := by
    intro b hb hcon
    obtain ⟨h1, h2⟩ := hcon
    have hfalse := hl₁ b (List.mem_reverse.mp hb)
    have htrue : (!b.undone && b.type != "clear") = true := by simp [h1, h2]
    rw [htrue] at hfalse
    exact Bool.noConfusion hfalse
  have hpost := hord l₂.reverse a l₁.reverse hacts hundone htype hnewest
  have hq : ∀ b ∈ l₁, (fun x : Action => x.undone && x.type != "clear") b = false := by
    intro b hb
    have hnb := hpost b (List.mem_reverse.mpr hb)
    cases hbu : b.undone with
    | false => simp [hbu]
    | true =>
      have hcl : b.type = "clear" := by
        by_contra hne
        exact hnb ⟨hbu, hne⟩
      simp [hcl]
  have hrev : (s.undoGlobal).1.actions.reverse = l₁ ++ { a with undone := true } :: l₂ := by
    rw [hundoState]
    show r.reverse.reverse = _
    rw [List.reverse_reverse, hr]
  have haa : ({ { a with undone := true } with undone := false } : Action) = a := by
    obtain ⟨i, u, t, p, un⟩ := a
    change un = false at hundone
    subst hundone
    rfl
  have hredo : DrawingState.scanSet (fun x => x.undone && x.type != "clear") false
      (s.undoGlobal).1.actions.reverse = some (l₁ ++ a :: l₂, a) := by
    rw [hrev]
    have happ := DrawingState.scanSet_append
      (fun x => x.undone && x.type != "clear") false l₁ l₂
      { a with undone := true } hq (by simp [htype])
    rw [happ, haa]
  have hstate : ((s.undoGlobal).1.redoGlobal).1 = s := by
    unfold DrawingState.redoGlobal
    rw [hredo]
    show ({ (s.undoGlobal).1 with actions := (l₁ ++ a :: l₂).reverse } : DrawingState) = s
    rw [hundoState]
    have hback : (l₁ ++ a :: l₂).reverse = s.actions := by
      rw [← hldec, List.reverse_reverse]
    show ({ s with actions := (l₁ ++ a :: l₂).reverse } : DrawingState) = s
    rw [hback]
  exact ⟨hstate, by rw [hstate]⟩

/-- Witness for C2 (amended): on the reachable log
`[active, undone, active]` — append by A, append by B, global undo (flips
B's action), append by C — undo followed by redo restores the state and its
`activeActions()` exactly. -/
theorem C2_undo_redo_roundtrip_witness :
    (((((((DrawingState.init "ROOM").addAction (some (strokeInput "A"))).1.addAction (some (strokeInput "B"))).1.undoGlobal).1.addAction (some (strokeInput "C"))).1.undoGlobal).1.redoGlobal).1 =
      (((((DrawingState.init "ROOM").addAction (some (strokeInput "A"))).1.addAction (some (strokeInput "B"))).1.undoGlobal).1.addAction (some (strokeInput "C"))).1 ∧
    (((((((DrawingState.init "ROOM").addAction (some (strokeInput "A"))).1.addAction (some (strokeInput "B"))).1.undoGlobal).1.addAction (some (strokeInput "C"))).1.undoGlobal).1.redoGlobal).1.getActiveActions =
      (((((DrawingState.init "ROOM").addAction (some (strokeInput "A"))).1.addAction (some (strokeInput "B"))).1.undoGlobal).1.addAction (some (strokeInput "C"))).1.getActiveActions := by
  refine C2_undo_redo_roundtrip _ (by decide) ?_
  intro pre a post h ha hcl hnew
  rcases pre with _ | ⟨x1, pre⟩
  · injection h with h1 h2
    subst h2
    exact absurd hnew (by decide)
  · rcases pre with _ | ⟨x2, pre⟩
    · injection h with h1 h2
      injection h2 with h2 h3
      subst h2
      exact absurd ha (by decide)
    · rcases pre with _ | ⟨x3, pre⟩
      · injection h with h1 h2
        injection h2 with h2 h3
        injection h3 with h3 h4
        subst h4
        intro b hb
        exact absurd hb (List.not_mem_nil b)
      · injection h with h1 h2
        injection h2 with h2 h3
        injection h3 with h3 h4
        simp at h4

/-- **C3**: `undoForUser A` either is a strict no-op (the state is returned
untouched) or its only mutation is setting `undone := true` on A's newest
active non-`clear` action: the log decomposes as `pre ++ act :: post` with
`act` authored by A, active and not a clear marker, nothing after `act` is
an eligible action of A, and every other entry (all of `pre` and `post`) is
returned unchanged — in particular no action authored by a user other than
A ever has its `undone` flag changed. -/
theorem C3_undoForUser_frame (s : DrawingState) (A : String) :
    ((s.undoForUser A).1 = s ∧ (s.undoForUser A).2 = none) ∨
    (∃ pre act post,
      s.actions = pre ++ act :: post ∧
      act.userId = some A ∧ act.undone = false ∧ act.type ≠ "clear" ∧
      (∀ b ∈ post, ¬(b.userId = some A ∧ b.undone = false ∧ b.type ≠ "clear")) ∧
      (s.undoForUser A).1 =
        { s with actions := pre ++ { act with undone := true } :: post } ∧
      (s.undoForUser A).2 = some { act with undone := true }) := by
  cases hscan : DrawingState.scanSet
      (fun a => a.userId == some A && !a.undone && a.type != "clear") true
      s.actions.reverse with
  | none =>
    left
    unfold DrawingState.undoForUser
    rw [hscan]
    exact ⟨rfl, rfl⟩
  | some pr =>
    obtain ⟨r, act⟩ := pr
    right
    obtain ⟨l₁, a, l₂, hldec, hl₁, hpa, hr, hact⟩ :=
      DrawingState.scanSet_eq_some _ _ _ _ _ hscan
    simp only [Bool.and_eq_true, beq_iff_eq, Bool.not_eq_true', bne_iff_ne,
      ne_eq] at hpa
    obtain ⟨⟨huid, hundone⟩, htype⟩ := hpa
    have hacts : s.actions = l₂.reverse ++ a :: l₁.reverse := by
      have h := congrArg List.reverse hldec
      rw [List.reverse_reverse] at h
      rw [h]
      simp
    refine ⟨l₂.reverse, a, l₁.reverse, hacts, huid, hundone, htype, ?_, ?_, ?_⟩
    · intro b hb hcon
      obtain ⟨h1, h2, h3⟩ := hcon
      have hfalse := hl₁ b (List.mem_reverse.mp hb)
      have htrue : (b.userId == some A && !b.undone && b.type != "clear") = true := by
        simp [h1, h2, h3]
      rw [htrue] at hfalse
      exact Bool.noConfusion hfalse
    · unfold DrawingState.undoForUser
      rw [hscan]
      show { s with actions := r.reverse } = _
      rw [hr]
      congr 1
      simp
    · unfold DrawingState.undoForUser
      rw [hscan]
      show some act = _
      rw [hact]

/-- Witness for C3: on a log holding one stroke by A and a later stroke by
B, `undoForUser A` leaves B's newer action untouched and flips only A's. -/
theorem C3_undoForUser_frame_witness :
    (((((DrawingState.init "ROOM").addAction (some (strokeInput "A"))).1.addAction
        (some (strokeInput "B"))).1.undoForUser "A").1 = (((DrawingState.init "ROOM").addAction (some (strokeInput "A"))).1.addAction
        (some (strokeInput "B"))).1 ∧
      ((((DrawingState.init "ROOM").addAction (some (strokeInput "A"))).1.addAction
        (some (strokeInput "B"))).1.undoForUser "A").2 = none) ∨
    (∃ pre act post,
      (((DrawingState.init "ROOM").addAction (some (strokeInput "A"))).1.addAction
        (some (strokeInput "B"))).1.actions = pre ++ act :: post ∧
      act.userId = some "A" ∧ act.undone = false ∧ act.type ≠ "clear" ∧
      (∀ b ∈ post, ¬(b.userId = some "A" ∧ b.undone = false ∧ b.type ≠ "clear")) ∧
      ((((DrawingState.init "ROOM").addAction (some (strokeInput "A"))).1.addAction
        (some (strokeInput "B"))).1.undoForUser "A").1 =
        { (((DrawingState.init "ROOM").addAction (some (strokeInput "A"))).1.addAction
            (some (strokeInput "B"))).1 with
          actions := pre ++ { act with undone := true } :: post } ∧
      ((((DrawingState.init "ROOM").addAction (some (strokeInput "A"))).1.addAction
        (some (strokeInput "B"))).1.undoForUser "A").2 =
          some { act with undone := true }) :=
  C3_undoForUser_frame
    (((DrawingState.init "ROOM").addAction (some (strokeInput "A"))).1.addAction
      (some (strokeInput "B"))).1 "A"

/-- **C6**: an `undo-global`, `undo-my` or `redo-global` request whose scan
finds no eligible action is a strict no-op: the handler returns the state
unchanged, broadcasts nothing, requests no persistence write, and repeating
the request gives the same result. -/
theorem C6_noop_undo_redo (s : DrawingState) (userId username : String) :
    ((∀ a ∈ s.actions, ¬(a.undone = false ∧ a.type ≠ "clear")) →
      handleUndoGlobal true s username = (s, [], false) ∧
      handleUndoGlobal true (handleUndoGlobal true s username).1 username =
        handleUndoGlobal true s username) ∧
    ((∀ a ∈ s.actions,
        ¬(a.userId = some userId ∧ a.undone = false ∧ a.type ≠ "clear")) →
      handleUndoMy true s userId username = (s, [], false) ∧
      handleUndoMy true (handleUndoMy true s userId username).1 userId username =
        handleUndoMy true s userId username) ∧
    ((∀ a ∈ s.actions, ¬(a.undone = true ∧ a.type ≠ "clear")) →
      handleRedoGlobal true s username = (s, [], false) ∧
      handleRedoGlobal true (handleRedoGlobal true s username).1 username =
        handleRedoGlobal true s username) := by
  refine ⟨fun hg => ?_, fun hm => ?_, fun hr => ?_⟩
  · have hnone : DrawingState.scanSet (fun a => !a.undone && a.type != "clear")
        true s.actions.reverse = none := by
      rw [DrawingState.scanSet_eq_none_iff]
      intro a ha
      have hA := hg a (List.mem_reverse.mp ha)
      simp only [not_and, ne_eq, not_not] at hA
      cases hu : a.undone with
      | false => simp [hu, hA hu]
      | true => simp [hu]
    have h1 : handleUndoGlobal true s username = (s, [], false) := by
      unfold handleUndoGlobal DrawingState.undoGlobal
      rw [hnone]
      rfl
    exact ⟨h1, by rw [h1]; exact h1⟩
  · have hnone : DrawingState.scanSet
        (fun a => a.userId == some userId && !a.undone && a.type != "clear")
        true s.actions.reverse = none := by
      rw [DrawingState.scanSet_eq_none_iff]
      intro a ha
      have hA := hm a (List.mem_reverse.mp ha)
      simp only [not_and, ne_eq, not_not] at hA
      by_cases hid : a.userId = some userId
      · cases hu : a.undone with
        | false => simp [hid, hu, hA hid hu]
        | true => simp [hu]
      · simp [hid]
    have h1 : handleUndoMy true s userId username = (s, [], false) := by
      unfold handleUndoMy DrawingState.undoForUser
      rw [hnone]
      rfl
    exact ⟨h1, by rw [h1]; exact h1⟩
  · have hnone : DrawingState.scanSet (fun a => a.undone && a.type != "clear")
        false s.actions.reverse = none := by
      rw [DrawingState.scanSet_eq_none_iff]
      intro a ha
      have hA := hr a (List.mem_reverse.mp ha)
      simp only [not_and, ne_eq, not_not] at hA
      cases hu : a.undone with
      | false => simp [hu]
      | true => simp [hu, hA hu]
    have h1 : handleRedoGlobal true s username = (s, [], false) := by
      unfold handleRedoGlobal DrawingState.redoGlobal
      rw [hnone]
      rfl
    exact ⟨h1, by rw [h1]; exact h1⟩

/-- Witness for C6: on the empty log none of the three requests finds an
eligible action, and each is a strict no-op. -/
theorem C6_noop_undo_redo_witness :
    handleUndoGlobal true (DrawingState.init "ROOM") "alice" =
      (DrawingState.init "ROOM", [], false) ∧
    handleUndoMy true (DrawingState.init "ROOM") "u1" "alice" =
      (DrawingState.init "ROOM", [], false) ∧
    handleRedoGlobal true (DrawingState.init "ROOM") "alice" =
      (DrawingState.init "ROOM", [], false) :=
  ⟨((C6_noop_undo_redo (DrawingState.init "ROOM") "u1" "alice").1
      (by intro a ha; exact absurd ha (List.not_mem_nil a))).1,
   ((C6_noop_undo_redo (DrawingState.init "ROOM") "u1" "alice").2.1
      (by intro a ha; exact absurd ha (List.not_mem_nil a))).1,
   ((C6_noop_undo_redo (DrawingState.init "ROOM") "u1" "alice").2.2
      (by intro a ha; exact absurd ha (List.not_mem_nil a))).1⟩

/-- **C5 counterexample**: batch moves are *not* validated like individual
draw-moves: the move `x = 20000, y = 0` is outside the ±10000 bound, so as
an individual `draw-move` it is rejected (no broadcast), yet inside a
`draw-batch` it is re-broadcast, because `handleDrawBatch` checks only that
the coordinates are numbers. -/
theorem C5_counterexample :
    handleDrawMove true "u1" "alice"
      { tool := some "brush", color := some "#000000", size := some 5
        x := some 20000, y := some 0 } = [] ∧
    (handleDrawBatch true (DrawingState.init "ROOM") "u1" "alice"
      [{ tool := some "brush", color := some "#000000", size := some 5
         x := some 20000, y := some 0 }]).2 =
      [{ userId := "u1", username := "alice", tool := some "brush"
         color := some "#000000", size := some 5, x := 20000, y := 0 }] := by
  constructor
  · rfl
  · rfl

/-- **C5 (amended)**: for *every* `draw-batch` from a joined connection —
mixed batches included — the drawing state is never mutated, and the batch
broadcast is the concatenation of what each move alone would produce; each
move that would pass the individual `draw-move` validation is re-broadcast
exactly as if it had arrived as its own `draw-move` (same content). Moves
with a non-numeric coordinate are skipped; but a move with numeric
coordinates outside ±10000 — rejected on the individual path — is still
re-broadcast by the batch path, so the validation outcomes agree only on
the individually-valid moves. -/
theorem C5_drawBatch_refines (joined : Bool) (s : DrawingState)
    (uid uname : String) (moves : List MovePoint) :
    (handleDrawBatch joined s uid uname moves).1 = s ∧
    (handleDrawBatch joined s uid uname moves).2 =
      (moves.map (fun m => (handleDrawBatch joined s uid uname [m]).2)).flatten ∧
    ∀ m ∈ moves, isValidDrawMove m = true →
      (handleDrawBatch joined s uid uname [m]).2 =
        handleDrawMove joined uid uname m := by
  refine ⟨?_, ?_, ?_⟩
  · cases joined <;> cases moves <;> rfl
  · cases joined with
    | false =>
      have hmap : ∀ l : List MovePoint,
          (l.map (fun m => (handleDrawBatch false s uid uname [m]).2)).flatten = [] := by
        intro l
        induction l with
        | nil => rfl
        | cons m rest ih =>
          simp only [List.map_cons, List.flatten_cons]
          rw [ih]
          rfl
      rw [hmap]
      cases moves <;> rfl
    | true =>
      have key : ∀ l : List MovePoint, (handleDrawBatch true s uid uname l).2 =
          l.filterMap (fun m =>
            match m.x, m.y with
            | some x, some y =>
              some { userId := uid, username := uname, tool := m.tool
                     color := m.color, size := m.size, x := x, y := y }
            | _, _ => none) := by
        intro l
        cases l <;> rfl
      simp only [key]
      induction moves with
      | nil => rfl
      | cons m rest ih =>
        cases hmx : m.x with
        | none =>
          simp [List.filterMap_cons, List.flatten_cons, hmx, ih]
        | some x =>
          cases hmy : m.y with
          | none => simp [List.filterMap_cons, List.flatten_cons, hmx, hmy, ih]
          | some y => simp [List.filterMap_cons, List.flatten_cons, hmx, hmy, ih]
  · intro m hm hv
    cases joined with
    | false => rfl
    | true =>
      have hxy : ∃ x y, m.x = some x ∧ m.y = some y := by
        cases hmx : m.x with
        | none => rw [isValidDrawMove, hmx] at hv; exact Bool.noConfusion hv
        | some x =>
          cases hmy : m.y with
          | none =>
            rw [isValidDrawMove, hmx, hmy] at hv
            exact Bool.noConfusion hv
          | some y => exact ⟨x, y, rfl, rfl⟩
      obtain ⟨x, y, hmx, hmy⟩ := hxy
      have hbatch1 : (handleDrawBatch true s uid uname [m]).2 =
          [{ userId := uid, username := uname, tool := m.tool
             color := m.color, size := m.size, x := x, y := y }] := by
        show List.filterMap (fun m : MovePoint =>
            match m.x, m.y with
            | some x, some y =>
              some ({ userId := uid, username := uname, tool := m.tool
                      color := m.color, size := m.size, x := x, y := y } :
                OutDrawMove)
            | _, _ => none) [m] = _
        simp [List.filterMap_cons, hmx, hmy]
      have hmove : handleDrawMove true uid uname m =
          [{ userId := uid, username := uname, tool := m.tool
             color := m.color, size := m.size, x := x, y := y }] := by
        rw [handleDrawMove, hv]
        simp only [Bool.not_true, Bool.false_eq_true, if_false, Bool.not_false]
        rw [hmx, hmy]
      rw [hbatch1, hmove]

/-- Witness for C5 (amended): a mixed batch — one in-range move, one
out-of-range move, one non-numeric move — leaves the state untouched, its
broadcast decomposes move by move, and the in-range move broadcasts exactly
the individual draw-move output. -/
theorem C5_drawBatch_refines_witness :
    (handleDrawBatch true (DrawingState.init "ROOM") "u1" "alice"
      [{ tool := some "brush", color := some "#000000", size := some 5
         x := some 3, y := some 4 },
       { tool := some "brush", color := some "#000000", size := some 5
         x := some 20000, y := some 0 },
       { tool := some "brush", color := some "#000000", size := some 5
         x := none, y := some 1 }]).1 = DrawingState.init "ROOM" ∧
    (handleDrawBatch true (DrawingState.init "ROOM") "u1" "alice"
      [{ tool := some "brush", color := some "#000000", size := some 5
         x := some 3, y := some 4 },
       { tool := some "brush", color := some "#000000", size := some 5
         x := some 20000, y := some 0 },
       { tool := some "brush", color := some "#000000", size := some 5
         x := none, y := some 1 }]).2 =
      (([{ tool := some "brush", color := some "#000000", size := some 5
           x := some 3, y := some 4 },
         { tool := some "brush", color := some "#000000", size := some 5
           x := some 20000, y := some 0 },
         { tool := some "brush", color := some "#000000", size := some 5
           x := none, y := some 1 }] : List MovePoint).map
        (fun m => (handleDrawBatch true (DrawingState.init "ROOM") "u1" "alice"
          [m]).2)).flatten ∧
    ∀ m ∈ ([{ tool := some "brush", color := some "#000000", size := some 5
              x := some 3, y := some 4 },
            { tool := some "brush", color := some "#000000", size := some 5
              x := some 20000, y := some 0 },
            { tool := some "brush", color := some "#000000", size := some 5
              x := none, y := some 1 }] : List MovePoint),
      isValidDrawMove m = true →
        (handleDrawBatch true (DrawingState.init "ROOM") "u1" "alice" [m]).2 =
          handleDrawMove true "u1" "alice" m :=
  C5_drawBatch_refines true (DrawingState.init "ROOM") "u1" "alice"
    [{ tool := some "brush", color := some "#000000", size := some 5
       x := some 3, y := some 4 },
     { tool := some "brush", color := some "#000000", size := some 5
       x := some 20000, y := some 0 },
     { tool := some "brush", color := some "#000000", size := some 5
       x := none, y := some 1 }]

/-- **C9 counterexample**: at a smoothed RTT of exactly 150 ms — inside the
spec's 100–199 ms band — `sendDrawMoveAdaptive` takes the batching branch
(`latency >= 150 && this.onDrawBatch`), not the individual-send branch, so
the claim "every draw-move is sent as its own individual message for
100–199 ms" fails (the throttle interval is still 32 ms). -/
theorem C9_counterexample :
    sendDrawMoveAdaptive 150 true true = SendPolicy.batch 32 ∧
    sendDrawMoveAdaptive 150 true true ≠ SendPolicy.individual 32 ∧
    100 ≤ 150 ∧ 150 ≤ 199 := by
  refine ⟨rfl, by decide, by decide, by decide⟩

/-- **C9 (amended)**: with both callbacks wired, a smoothed RTT of
100–149 ms sends every move as its own individual message with a 32 ms
minimum interval; from 150 ms up to 199 ms the controller instead
accumulates moves into a `draw-batch`, still flushed on a 32 ms minimum
interval. -/
theorem C9_adaptive_policy (latency : Nat) :
    (100 ≤ latency → latency < 150 →
      sendDrawMoveAdaptive latency true true = SendPolicy.individual 32) ∧
    (150 ≤ latency → latency < 200 →
      sendDrawMoveAdaptive latency true true = SendPolicy.batch 32) := by
  constructor
  · intro h1 h2
    have h50 : ¬ (latency < 50) := by omega
    have h100 : ¬ (latency < 100) := by omega
    have h200 : latency < 200 := by omega
    have h150 : ¬ (150 ≤ latency) := by omega
    simp [sendDrawMoveAdaptive, getAdaptiveThrottle, h50, h100, h200, h150]
  · intro h1 h2
    have h50 : ¬ (latency < 50) := by omega
    have h100 : ¬ (latency < 100) := by omega
    simp [sendDrawMoveAdaptive, getAdaptiveThrottle, h50, h100, h2, h1]

/-- Witness for C9 (amended): at 120 ms the move goes out individually with
a 32 ms throttle; at 180 ms it is accumulated into a batch. -/
theorem C9_adaptive_policy_witness :
    sendDrawMoveAdaptive 120 true true = SendPolicy.individual 32 ∧
    sendDrawMoveAdaptive 180 true true = SendPolicy.batch 32 :=
  ⟨(C9_adaptive_policy 120).1 (by decide) (by decide),
   (C9_adaptive_policy 180).2 (by decide) (by decide)⟩

/-- **C10**: the legacy message types `undo` and `redo` are routed by
`handleMessage` to exactly the same handlers as `undo-my` and `redo-global`
respectively, so their state change, `canvas-rebuild` broadcast and
persistence behavior coincide for every drawing state. -/
theorem C10_legacy_undo_redo (joined : Bool) (s : DrawingState)
    (userId username : String) :
    handleMessageUndoRedo "undo" joined s userId username =
      handleMessageUndoRedo "undo-my" joined s userId username ∧
    handleMessageUndoRedo "redo" joined s userId username =
      handleMessageUndoRedo "redo-global" joined s userId username :=
  ⟨rfl, rfl⟩

end Canvas
